import Mathlib

/-!
Shallow embedding of the seed TodoMVC application (`src/lib.rs`).

Modelling decisions, stated once here:

* `Ulid` identifiers are modelled as `Nat`.  `Ulid::new()` produces fresh,
  monotonically increasing identifiers; we model the generator as a `Nat`
  counter threaded through `update`: the counter value is the identifier the
  next `Ulid::new()` call would return, and "consuming an identifier" is
  incrementing the counter.
* `BTreeMap<Ulid, Todo>` is modelled as an association list sorted by key
  (`TodoMap`), which is exactly the iteration-ordered view a `BTreeMap`
  presents.  `get`/`get_mut`/`insert`/`remove` are embedded as the
  corresponding operations on the first matching key (keys are unique in any
  map built by the embedded operations, as in `BTreeMap`).
* `LocalStorage` is a partial map from string keys to stored blobs.  Serde
  serialization round-trips, so the stored blob is modelled as the serialized
  collection itself (a `TodoMap` value).
* `ElRef<web_sys::HtmlInputElement>` (a DOM handle inside `SelectedTodo`) and
  the `orders.after_next_render` focus effect are DOM-only and carry no model
  state; they are omitted.  `Model.base_url` is never read by any claim-relevant
  code and is omitted.
-/

namespace SeedApp

/-- `const STORAGE_KEY: &str = "todos-seed";` -/
def STORAGE_KEY : String := "todos-seed"

/-- `const ACTIVE: &str = "active";` -/
def ACTIVE : String := "active"

/-- `const COMPLETED: &str = "completed";` -/
def COMPLETED : String := "completed"

/-- `struct Todo { id: Ulid, title: String, completed: bool }` -/
structure Todo where
  id : Nat
  title : String
  completed : Bool
deriving Repr, DecidableEq

/-- `BTreeMap<Ulid, Todo>` as its sorted association-list view. -/
abbrev TodoMap := List (Nat × Todo)

/-- `BTreeMap::get(&k)`: the value stored at the (first) matching key. -/
def btreeGet : TodoMap → Nat → Option Todo
  | [], _ => none
  | (k, v) :: rest, k0 => if k = k0 then some v else btreeGet rest k0

/-- `BTreeMap::insert(k, v)`: insert in key order, replacing an existing entry. -/
def btreeInsert : TodoMap → Nat → Todo → TodoMap
  | [], k0, v0 => [(k0, v0)]
  | (k, v) :: rest, k0, v0 =>
    if k0 < k then (k0, v0) :: (k, v) :: rest
    else if k0 = k then (k0, v0) :: rest
    else (k, v) :: btreeInsert rest k0 v0

/-- `BTreeMap::remove(&k)`: drop the (first) matching entry. -/
def btreeRemove : TodoMap → Nat → TodoMap
  | [], _ => []
  | (k, v) :: rest, k0 => if k = k0 then rest else (k, v) :: btreeRemove rest k0

/-- `BTreeMap::get_mut(&k)` followed by a field write: rewrite the value at the
(first) matching key, leaving everything else in place. -/
def btreeModify : TodoMap → Nat → (Todo → Todo) → TodoMap
  | [], _, _ => []
  | (k, v) :: rest, k0, f =>
    if k = k0 then (k, f v) :: rest else (k, v) :: btreeModify rest k0 f

/-- `model.todos.values().all(|todo| todo.completed)` (used by
`Msg::CheckOrUncheckAll` and `view_toggle_all`). -/
def allCompleted (todos : TodoMap) : Bool :=
  todos.all fun p => p.2.completed

/-- `enum Filter { All, Active, Completed }` -/
inductive Filter where
  | All
  | Active
  | Completed
deriving Repr, DecidableEq

/-- The part of `seed::Url` the app reads: `url.remaining_hash_path_parts()`. -/
structure Url where
  remaining_hash_path_parts : List String
deriving Repr, DecidableEq

/-- `impl From<Url> for Filter`: match on the remaining hash path parts;
`[ACTIVE]` gives `Active`, `[COMPLETED]` gives `Completed`, anything else
(including the empty list) gives `All`. -/
def Filter.fromUrl (url : Url) : Filter :=
  match url.remaining_hash_path_parts with
  | [p] => if p = ACTIVE then .Active else if p = COMPLETED then .Completed else .All
  | _ => .All

/-- Drop leading and trailing whitespace characters from a character list. -/
def trimChars (cs : List Char) : List Char :=
  ((cs.dropWhile Char.isWhitespace).reverse.dropWhile Char.isWhitespace).reverse

/-- Rust `str::trim`: the string without its leading and trailing whitespace.
(Defined over the character list so that it is kernel-computable; Lean's own
`String.trim` uses well-founded recursion and does not reduce.) -/
def rustTrim (s : String) : String := String.mk (trimChars s.data)

/-- `struct SelectedTodo { id, title, input_element }` (DOM handle omitted). -/
structure SelectedTodo where
  id : Nat
  title : String
deriving Repr, DecidableEq

/-- `struct Model` (the `base_url` field is never read and is omitted). -/
structure Model where
  todos : TodoMap
  new_todo_title : String
  selected_todo : Option SelectedTodo
  filter : Filter
deriving Repr, DecidableEq

/-- `enum Msg` -/
inductive Msg where
  | NewTodoTitleChanged (title : String)
  | UrlChanged (url : Url)
  | CreateTodo
  | ToggleTodo (id : Nat)
  | RemoveTodo (id : Nat)
  | CheckOrUncheckAll
  | ClearCompleted
  | SelectTodo (id : Option Nat)
  | SelectedTodoTitleChanged (title : String)
  | SaveSelectedTodo

/-- Browser local storage: a partial map from keys to stored blobs (see the
header comment: a blob is the serialized `TodoMap` itself). -/
abbrev LocalStorage := String → Option TodoMap

/-- `LocalStorage::insert(key, value)`: overwrite the entry at `key`. -/
def localStorageInsert (s : LocalStorage) (key : String) (v : TodoMap) : LocalStorage :=
  fun k => if k = key then some v else s k

/-- The model-transforming part of `fn update` (everything before the final
`LocalStorage::insert` line), one match arm per `Msg` variant, with the
fresh-identifier counter `gen` threaded through (only `CreateTodo` consumes
an identifier). -/
def updateModel (msg : Msg) (m : Model) (gen : Nat) : Model × Nat :=
  match msg with
  | .NewTodoTitleChanged title => ({ m with new_todo_title := title }, gen)
  | .UrlChanged url => ({ m with filter := Filter.fromUrl url }, gen)
  | .CreateTodo =>
    let title := rustTrim m.new_todo_title
    if title = "" then (m, gen)
    else
      ({ m with
          todos := btreeInsert m.todos gen { id := gen, title := title, completed := false }
          new_todo_title := "" },
        gen + 1)
  | .ToggleTodo id =>
    ({ m with todos := btreeModify m.todos id fun t => { t with completed := !t.completed } },
      gen)
  | .RemoveTodo id => ({ m with todos := btreeRemove m.todos id }, gen)
  | .CheckOrUncheckAll =>
    let all_checked := allCompleted m.todos
    ({ m with todos := m.todos.map fun p => (p.1, { p.2 with completed := !all_checked }) },
      gen)
  | .ClearCompleted =>
    ({ m with todos := m.todos.filter fun p => !p.2.completed }, gen)
  | .SelectTodo (some id) =>
    match btreeGet m.todos id with
    | some todo => ({ m with selected_todo := some { id := id, title := todo.title } }, gen)
    | none => (m, gen)
  | .SelectTodo none => ({ m with selected_todo := none }, gen)
  | .SelectedTodoTitleChanged title =>
    match m.selected_todo with
    | some st => ({ m with selected_todo := some { st with title := title } }, gen)
    | none => (m, gen)
  | .SaveSelectedTodo =>
    match m.selected_todo with
    | some st =>
      let title := rustTrim st.title
      if title = "" then
        ({ m with selected_todo := none, todos := btreeRemove m.todos st.id }, gen)
      else
        ({ m with
            selected_todo := none
            todos := btreeModify m.todos st.id fun t => { t with title := title } },
          gen)
    | none => (m, gen)

/-- `fn update`: the model transition followed by the unconditional
`LocalStorage::insert(STORAGE_KEY, &model.todos)` on its last line. -/
def update (msg : Msg) (m : Model) (gen : Nat) (storage : LocalStorage) :
    Model × Nat × LocalStorage :=
  let r := updateModel msg m gen
  (r.1, r.2, localStorageInsert storage STORAGE_KEY r.1.todos)

/-- The visible text of the remaining-count span in `view_footer`: the
`strong![completed_count]` child followed by
`format!(" item{} left", if active_count == 1 { "" } else { "s" })`. -/
def view_footer_count_text (todos : TodoMap) : String :=
  let completed_count := (todos.filter fun p => p.2.completed).length
  let active_count := todos.length - completed_count
  toString completed_count ++ " item" ++ (if active_count == 1 then "" else "s") ++ " left"

/-! ### Association-list map lemmas -/

theorem btreeGet_eq_none_iff (m : TodoMap) (k : Nat) :
    btreeGet m k = none ↔ ∀ p ∈ m, p.1 ≠ k := by
  induction m with
  | nil => simp [btreeGet]
  | cons p rest ih =>
    obtain ⟨k1, v1⟩ := p
    by_cases h : k1 = k <;> simp [btreeGet, h, ih]

theorem btreeRemove_not_mem (m : TodoMap) (k : Nat) (h : btreeGet m k = none) :
    btreeRemove m k = m := by
  induction m with
  | nil => rfl
  | cons p rest ih =>
    obtain ⟨k1, v1⟩ := p
    by_cases hk : k1 = k
    · simp [btreeGet, hk] at h
    · simp only [btreeGet, if_neg hk] at h
      simp [btreeRemove, hk, ih h]

theorem btreeModify_not_mem (m : TodoMap) (k : Nat) (f : Todo → Todo)
    (h : btreeGet m k = none) : btreeModify m k f = m := by
  induction m with
  | nil => rfl
  | cons p rest ih =>
    obtain ⟨k1, v1⟩ := p
    by_cases hk : k1 = k
    · simp [btreeGet, hk] at h
    · simp only [btreeGet, if_neg hk] at h
      simp [btreeModify, hk, ih h]

theorem btreeGet_remove_ne (m : TodoMap) (k k0 : Nat) (h : k ≠ k0) :
    btreeGet (btreeRemove m k0) k = btreeGet m k := by
  induction m with
  | nil => rfl
  | cons p rest ih =>
    obtain ⟨k1, v1⟩ := p
    by_cases hk : k1 = k0
    · subst hk
      simp [btreeRemove, btreeGet, Ne.symm h]
    · simp [btreeRemove, btreeGet, hk, ih]

theorem btreeGet_remove_self (m : TodoMap) (k : Nat) (hnd : (m.map Prod.fst).Nodup) :
    btreeGet (btreeRemove m k) k = none := by
  induction m with
  | nil => rfl
  | cons p rest ih =>
    obtain ⟨k1, v1⟩ := p
    simp only [List.map_cons, List.nodup_cons] at hnd
    by_cases hk : k1 = k
    · subst hk
      simp only [btreeRemove, if_pos rfl]
      rw [btreeGet_eq_none_iff]
      intro q hq
      exact fun hqk => hnd.1 (hqk ▸ List.mem_map_of_mem Prod.fst hq)
    · simp [btreeRemove, btreeGet, hk, ih hnd.2]

theorem btreeGet_modify_ne (m : TodoMap) (k k0 : Nat) (f : Todo → Todo) (h : k ≠ k0) :
    btreeGet (btreeModify m k0 f) k = btreeGet m k := by
  induction m with
  | nil => rfl
  | cons p rest ih =>
    obtain ⟨k1, v1⟩ := p
    by_cases hk : k1 = k0
    · subst hk
      simp [btreeModify, btreeGet, Ne.symm h]
    · simp [btreeModify, btreeGet, hk, ih]

theorem btreeGet_modify_self (m : TodoMap) (k : Nat) (f : Todo → Todo) :
    btreeGet (btreeModify m k f) k = (btreeGet m k).map f := by
  induction m with
  | nil => rfl
  | cons p rest ih =>
    obtain ⟨k1, v1⟩ := p
    by_cases hk : k1 = k <;> simp [btreeModify, btreeGet, hk, ih]

theorem btreeGet_insert_self (m : TodoMap) (k : Nat) (v : Todo) :
    btreeGet (btreeInsert m k v) k = some v := by
  induction m with
  | nil => simp [btreeInsert, btreeGet]
  | cons p rest ih =>
    obtain ⟨k1, v1⟩ := p
    rcases Nat.lt_trichotomy k k1 with hlt | heq | hgt
    · simp [btreeInsert, hlt, btreeGet]
    · simp [btreeInsert, heq, btreeGet, Nat.lt_irrefl]
    · have h1 : ¬k < k1 := Nat.not_lt.mpr (Nat.le_of_lt hgt)
      have h2 : k ≠ k1 := Nat.ne_of_gt hgt
      have h3 : k1 ≠ k := fun hh => h2 hh.symm
      simp [btreeInsert, h1, h2, btreeGet, h3, ih]

theorem btreeGet_insert_ne (m : TodoMap) (k : Nat) (v : Todo) (k0 : Nat) (h : k0 ≠ k) :
    btreeGet (btreeInsert m k v) k0 = btreeGet m k0 := by
  induction m with
  | nil => simp [btreeInsert, btreeGet, Ne.symm h]
  | cons p rest ih =>
    obtain ⟨k1, v1⟩ := p
    rcases Nat.lt_trichotomy k k1 with hlt | heq | hgt
    · simp [btreeInsert, hlt, btreeGet, Ne.symm h]
    · subst heq
      simp [btreeInsert, Nat.lt_irrefl, btreeGet, Ne.symm h]
    · have h1 : ¬k < k1 := Nat.not_lt.mpr (Nat.le_of_lt hgt)
      have h2 : k ≠ k1 := Nat.ne_of_gt hgt
      simp [btreeInsert, h1, h2, btreeGet, ih]

theorem btreeInsert_length (m : TodoMap) (k : Nat) (v : Todo) (h : btreeGet m k = none) :
    (btreeInsert m k v).length = m.length + 1 := by
  induction m with
  | nil => rfl
  | cons p rest ih =>
    obtain ⟨k1, v1⟩ := p
    rcases Nat.lt_trichotomy k k1 with hlt | heq | hgt
    · simp [btreeInsert, hlt]
    · subst heq
      simp [btreeGet] at h
    · have h1 : ¬k < k1 := Nat.not_lt.mpr (Nat.le_of_lt hgt)
      have h2 : k ≠ k1 := Nat.ne_of_gt hgt
      have h3 : k1 ≠ k := fun hh => h2 hh.symm
      simp only [btreeGet, if_neg h3] at h
      simp [btreeInsert, h1, h2, ih h]

theorem btreeModify_modify (m : TodoMap) (k : Nat) (f g : Todo → Todo) :
    btreeModify (btreeModify m k f) k g = btreeModify m k fun t => g (f t) := by
  induction m with
  | nil => rfl
  | cons p rest ih =>
    obtain ⟨k1, v1⟩ := p
    by_cases hk : k1 = k <;> simp [btreeModify, hk, ih]

theorem btreeModify_congr_id (m : TodoMap) (k : Nat) (f : Todo → Todo)
    (h : ∀ t, f t = t) : btreeModify m k f = m := by
  induction m with
  | nil => rfl
  | cons p rest ih =>
    obtain ⟨k1, v1⟩ := p
    by_cases hk : k1 = k <;> simp [btreeModify, hk, ih, h]

theorem fromUrl_characterization (parts : List String) :
    (Filter.fromUrl { remaining_hash_path_parts := parts } = .Active ↔ parts = ["active"]) ∧
    (Filter.fromUrl { remaining_hash_path_parts := parts } = .Completed ↔
      parts = ["completed"]) ∧
    (parts ≠ ["active"] → parts ≠ ["completed"] →
      Filter.fromUrl { remaining_hash_path_parts := parts } = .All) := by
  rcases parts with _ | ⟨p, _ | ⟨q, rest⟩⟩
  · simp [Filter.fromUrl]
  · by_cases h1 : p = "active"
    · subst h1
      simp [Filter.fromUrl, ACTIVE, COMPLETED]
    · by_cases h2 : p = "completed"
      · subst h2
        simp [Filter.fromUrl, ACTIVE, COMPLETED]
      · simp [Filter.fromUrl, ACTIVE, COMPLETED, h1, h2]
  · simp [Filter.fromUrl]

theorem btreeGet_map (m : TodoMap) (k : Nat) (g : Todo → Todo) :
    btreeGet (m.map fun p => (p.1, g p.2)) k = (btreeGet m k).map g := by
  induction m with
  | nil => rfl
  | cons p rest ih =>
    obtain ⟨k1, v1⟩ := p
    by_cases hk : k1 = k <;> simp [btreeGet, hk, ih]

theorem checkOrUncheckAll_todos (m : Model) (gen : Nat) (s : LocalStorage) :
    (update .CheckOrUncheckAll m gen s).1.todos
      = m.todos.map fun q => (q.1, { q.2 with completed := !allCompleted m.todos }) := rfl

theorem mem_map_set_completed (todos : TodoMap) (b : Bool) (p : Nat × Todo)
    (hp : p ∈ todos.map fun q => (q.1, { q.2 with completed := b })) :
    p.2.completed = b := by
  simp only [List.mem_map] at hp
  obtain ⟨q, hq, rfl⟩ := hp
  rfl

theorem allCompleted_map_true (todos : TodoMap) :
    allCompleted (todos.map fun q => (q.1, { q.2 with completed := true })) = true := by
  simp only [allCompleted, List.all_eq_true]
  intro p hp
  exact mem_map_set_completed todos true p hp

/-! ### Concrete sample states used by the witnesses -/

/-- Empty local storage. -/
def storage0 : LocalStorage := fun _ => none

/-- The blank startup model. -/
def model0 : Model :=
  { todos := [], new_todo_title := "", selected_todo := none, filter := .All }

/-- A model whose draft holds `"  Buy milk  "`. -/
def model1 : Model :=
  { todos := [], new_todo_title := "  Buy milk  ", selected_todo := none, filter := .All }

/-- A model whose draft is whitespace only. -/
def modelWs : Model :=
  { todos := [], new_todo_title := "   ", selected_todo := none, filter := .All }

/-- One completed item, with an open edit session holding `"  New  "` for it. -/
def model2 : Model :=
  { todos := [(5, { id := 5, title := "Old", completed := true })]
    new_todo_title := ""
    selected_todo := some { id := 5, title := "  New  " }
    filter := .All }

/-- The two-item collection `{A : incomplete, B : complete}` from the spec. -/
def model3 : Model :=
  { todos := [(1, { id := 1, title := "A", completed := false }),
              (2, { id := 2, title := "B", completed := true })]
    new_todo_title := ""
    selected_todo := none
    filter := .All }

/-! ### Claim theorems -/

/-- C1 (code bug): on the one-item collection whose single todo is completed
(0 active items), the footer's remaining-count text reads "1 items left": the
`strong![]` child of the `todo-count` span displays `completed_count`, not the
active count, so the text differs from the "0 items left" the claim requires
(while the singular/plural choice is indeed driven by the active count). -/
theorem view_footer_count_divergence :
    view_footer_count_text [(1, { id := 1, title := "A", completed := true })] = "1 items left" ∧
    view_footer_count_text [(1, { id := 1, title := "A", completed := true })] ≠ "0 items left" := by
  constructor <;> decide

/-- C9: every `update`, for every message (changing the model or not), ends by
writing the serialized todo collection to local storage under `STORAGE_KEY`:
whatever the prior storage contents, the value stored afterwards is exactly
the resulting model's collection. -/
theorem update_persists_todos (msg : Msg) (m : Model) (gen : Nat) (s : LocalStorage) :
    ((update msg m gen s).2.2) STORAGE_KEY = some (update msg m gen s).1.todos := by
  simp [update, localStorageInsert]

/-- C4: `CreateTodo` trims the draft; on a whitespace-only draft it changes
nothing and consumes no identifier; on a non-empty trim it clears the draft,
consumes the fresh identifier `gen`, stores under it a new item with the
trimmed title and `completed := false`, leaves every other key unchanged, and
(when `gen` was absent, as a freshly issued identifier is) grows the
collection by exactly one item. -/
theorem createTodo_spec (m : Model) (gen : Nat) (s : LocalStorage) :
    (rustTrim m.new_todo_title = "" →
      (update .CreateTodo m gen s).1 = m ∧ (update .CreateTodo m gen s).2.1 = gen) ∧
    (rustTrim m.new_todo_title ≠ "" →
      (update .CreateTodo m gen s).1.new_todo_title = "" ∧
      (update .CreateTodo m gen s).2.1 = gen + 1 ∧
      btreeGet (update .CreateTodo m gen s).1.todos gen =
        some { id := gen, title := rustTrim m.new_todo_title, completed := false } ∧
      (∀ k, k ≠ gen → btreeGet (update .CreateTodo m gen s).1.todos k = btreeGet m.todos k) ∧
      (btreeGet m.todos gen = none →
        (update .CreateTodo m gen s).1.todos.length = m.todos.length + 1) ∧
      (update .CreateTodo m gen s).1.selected_todo = m.selected_todo ∧
      (update .CreateTodo m gen s).1.filter = m.filter) := by
  constructor
  · intro h
    constructor <;> simp [update, updateModel, h]
  · intro h
    refine ⟨by simp [update, updateModel, h], by simp [update, updateModel, h], ?_, ?_, ?_,
      by simp [update, updateModel, h], by simp [update, updateModel, h]⟩
    · simp only [update, updateModel, if_neg h]
      exact btreeGet_insert_self _ _ _
    · intro k hk
      simp only [update, updateModel, if_neg h]
      exact btreeGet_insert_ne _ _ _ _ hk
    · intro hfresh
      simp only [update, updateModel, if_neg h]
      exact btreeInsert_length _ _ _ hfresh

/-- C4 witness: creating from draft `"  Buy milk  "` on the empty model with
fresh identifier 0 yields the item `{0, "Buy milk", false}`, a cleared draft
and an advanced identifier counter; creating from the whitespace-only draft
changes nothing and keeps the counter at 7. -/
theorem createTodo_spec_witness :
    btreeGet (update .CreateTodo model1 0 storage0).1.todos 0 =
      some { id := 0, title := "Buy milk", completed := false } ∧
    (update .CreateTodo model1 0 storage0).1.new_todo_title = "" ∧
    (update .CreateTodo model1 0 storage0).2.1 = 1 ∧
    (update .CreateTodo modelWs 7 storage0).1 = modelWs ∧
    (update .CreateTodo modelWs 7 storage0).2.1 = 7 := by
  have h := (createTodo_spec model1 0 storage0).2 (by decide)
  have hw := (createTodo_spec modelWs 7 storage0).1 (by decide)
  exact ⟨(h.2.2.1).trans (by decide), h.1, h.2.1, hw.1, hw.2⟩

/-- C5: `ClearCompleted` keeps exactly the items whose completed flag is
false, each unchanged, the survivors keeping their relative order (the result
is a sublist of the original collection); the other model fields are
untouched. -/
theorem clearCompleted_spec (m : Model) (gen : Nat) (s : LocalStorage) :
    List.Sublist (update .ClearCompleted m gen s).1.todos m.todos ∧
    (∀ p : Nat × Todo, p ∈ (update .ClearCompleted m gen s).1.todos ↔
      p ∈ m.todos ∧ p.2.completed = false) ∧
    (update .ClearCompleted m gen s).1.new_todo_title = m.new_todo_title ∧
    (update .ClearCompleted m gen s).1.selected_todo = m.selected_todo ∧
    (update .ClearCompleted m gen s).1.filter = m.filter := by
  refine ⟨?_, ?_, rfl, rfl, rfl⟩
  · simp only [update, updateModel]
    exact List.filter_sublist _
  · intro p
    simp [update, updateModel, List.mem_filter]

/-- C6: `ToggleTodo` on a present identifier negates exactly that item's
completed flag, keeps its identifier and title, leaves every other item and
every other model field unchanged, and applying it twice restores the
original model; on an absent identifier the model is unchanged. -/
theorem toggleTodo_spec (m : Model) (gen : Nat) (s : LocalStorage) (id : Nat) :
    (∀ t, btreeGet m.todos id = some t →
      btreeGet (update (.ToggleTodo id) m gen s).1.todos id =
        some { t with completed := !t.completed }) ∧
    (∀ k, k ≠ id → btreeGet (update (.ToggleTodo id) m gen s).1.todos k = btreeGet m.todos k) ∧
    (update (.ToggleTodo id) m gen s).1.new_todo_title = m.new_todo_title ∧
    (update (.ToggleTodo id) m gen s).1.selected_todo = m.selected_todo ∧
    (update (.ToggleTodo id) m gen s).1.filter = m.filter ∧
    (update (.ToggleTodo id) (update (.ToggleTodo id) m gen s).1 gen s).1 = m ∧
    (btreeGet m.todos id = none → (update (.ToggleTodo id) m gen s).1 = m) := by
  refine ⟨?_, ?_, rfl, rfl, rfl, ?_, ?_⟩
  · intro t ht
    simp only [update, updateModel]
    rw [btreeGet_modify_self, ht]
    rfl
  · intro k hk
    simp only [update, updateModel]
    exact btreeGet_modify_ne _ _ _ _ hk
  · simp only [update, updateModel]
    rw [btreeModify_modify, btreeModify_congr_id]
    intro t
    cases t
    simp
  · intro h
    simp only [update, updateModel]
    rw [btreeModify_not_mem _ _ _ h]

/-- C6 witness: toggling the present identifier 1 in `model3` completes item
A; toggling it twice restores `model3`; toggling the absent identifier 99
changes nothing. -/
theorem toggleTodo_spec_witness :
    btreeGet (update (.ToggleTodo 1) model3 0 storage0).1.todos 1 =
      some { id := 1, title := "A", completed := true } ∧
    (update (.ToggleTodo 1) (update (.ToggleTodo 1) model3 0 storage0).1 0 storage0).1 =
      model3 ∧
    (update (.ToggleTodo 99) model3 0 storage0).1 = model3 := by
  have h := toggleTodo_spec model3 0 storage0 1
  have h99 := toggleTodo_spec model3 0 storage0 99
  refine ⟨?_, h.2.2.2.2.2.1, h99.2.2.2.2.2.2 (by decide)⟩
  exact (h.1 { id := 1, title := "A", completed := false } (by decide)).trans (by decide)

/-- C7: the filter derived from a URL is `Active` exactly on remaining hash
path parts `["active"]`, `Completed` exactly on `["completed"]`, and `All` on
everything else (including the empty list); `UrlChanged` replaces the model's
filter with exactly this derived value — depending only on the URL, not on
the prior filter — and touches nothing else. -/
theorem urlChanged_filter_spec (m : Model) (gen : Nat) (s : LocalStorage) (url : Url) :
    (update (.UrlChanged url) m gen s).1.filter = Filter.fromUrl url ∧
    (update (.UrlChanged url) m gen s).1.todos = m.todos ∧
    (update (.UrlChanged url) m gen s).1.new_todo_title = m.new_todo_title ∧
    (update (.UrlChanged url) m gen s).1.selected_todo = m.selected_todo ∧
    (Filter.fromUrl url = .Active ↔ url.remaining_hash_path_parts = ["active"]) ∧
    (Filter.fromUrl url = .Completed ↔ url.remaining_hash_path_parts = ["completed"]) ∧
    (url.remaining_hash_path_parts ≠ ["active"] →
      url.remaining_hash_path_parts ≠ ["completed"] → Filter.fromUrl url = .All) := by
  obtain ⟨parts⟩ := url
  exact ⟨rfl, rfl, rfl, rfl, (fromUrl_characterization parts).1,
    (fromUrl_characterization parts).2.1, (fromUrl_characterization parts).2.2⟩

/-- C7 witness: the URL-change sequence with hash paths `["active"]`,
`["completed"]`, `["unknownvalue"]` drives the filter through `Active`,
`Completed`, `All`. -/
theorem urlChanged_filter_spec_witness :
    (update (.UrlChanged { remaining_hash_path_parts := ["active"] })
      model0 0 storage0).1.filter = Filter.Active ∧
    (update (.UrlChanged { remaining_hash_path_parts := ["completed"] })
      (update (.UrlChanged { remaining_hash_path_parts := ["active"] })
        model0 0 storage0).1 0 storage0).1.filter = Filter.Completed ∧
    (update (.UrlChanged { remaining_hash_path_parts := ["unknownvalue"] })
      model0 0 storage0).1.filter = Filter.All := by
  refine ⟨?_, ?_, ?_⟩
  · exact ((urlChanged_filter_spec model0 0 storage0
      { remaining_hash_path_parts := ["active"] }).1).trans (by decide)
  · exact ((urlChanged_filter_spec
      (update (.UrlChanged { remaining_hash_path_parts := ["active"] }) model0 0 storage0).1
      0 storage0 { remaining_hash_path_parts := ["completed"] }).1).trans (by decide)
  · exact ((urlChanged_filter_spec model0 0 storage0
      { remaining_hash_path_parts := ["unknownvalue"] }).1).trans
      ((urlChanged_filter_spec model0 0 storage0
        { remaining_hash_path_parts := ["unknownvalue"] }).2.2.2.2.2.2
        (by decide) (by decide))

/-- C2: `SaveSelectedTodo` with an open edit session closes the session
(`selected_todo` becomes `none`) in every branch, trims the session title,
and: if the trim is empty it removes the session's item, leaving every other
item unchanged; otherwise it rewrites exactly that item's title to the
trimmed text — keeping the item's identifier and completed flag — and leaves
every other item unchanged.  (`hnd` is the key-uniqueness invariant every
`BTreeMap` satisfies.) -/
theorem saveSelectedTodo_spec (m : Model) (gen : Nat) (s : LocalStorage) (st : SelectedTodo)
    (hsel : m.selected_todo = some st) (hnd : (m.todos.map Prod.fst).Nodup) :
    (update .SaveSelectedTodo m gen s).1.selected_todo = none ∧
    (rustTrim st.title = "" →
      btreeGet (update .SaveSelectedTodo m gen s).1.todos st.id = none ∧
      ∀ k, k ≠ st.id →
        btreeGet (update .SaveSelectedTodo m gen s).1.todos k = btreeGet m.todos k) ∧
    (rustTrim st.title ≠ "" →
      (∀ t, btreeGet m.todos st.id = some t →
        btreeGet (update .SaveSelectedTodo m gen s).1.todos st.id =
          some { t with title := rustTrim st.title }) ∧
      ∀ k, k ≠ st.id →
        btreeGet (update .SaveSelectedTodo m gen s).1.todos k = btreeGet m.todos k) := by
  by_cases he : rustTrim st.title = ""
  · refine ⟨by simp [update, updateModel, hsel, he], ?_, fun hne => absurd he hne⟩
    intro _
    constructor
    · simp only [update, updateModel, hsel, he, if_pos]
      exact btreeGet_remove_self _ _ hnd
    · intro k hk
      simp only [update, updateModel, hsel, he, if_pos]
      exact btreeGet_remove_ne _ _ _ hk
  · refine ⟨by simp [update, updateModel, hsel, he], fun hempty => absurd hempty he, ?_⟩
    intro _
    constructor
    · intro t ht
      simp only [update, updateModel, hsel, if_neg he]
      rw [btreeGet_modify_self, ht]
      rfl
    · intro k hk
      simp only [update, updateModel, hsel, if_neg he]
      exact btreeGet_modify_ne _ _ _ _ hk

/-- C2 witness: saving the session `{id := 5, title := "  New  "}` over the
completed item `{5, "Old", true}` closes the session and rewrites the item to
`{5, "New", true}` — trimmed title, identifier and completed flag intact. -/
theorem saveSelectedTodo_spec_witness :
    (update .SaveSelectedTodo model2 0 storage0).1.selected_todo = none ∧
    btreeGet (update .SaveSelectedTodo model2 0 storage0).1.todos 5 =
      some { id := 5, title := "New", completed := true } := by
  have h := saveSelectedTodo_spec model2 0 storage0 { id := 5, title := "  New  " }
    rfl (by decide)
  refine ⟨h.1, ?_⟩
  exact ((h.2.2 (by decide)).1 { id := 5, title := "Old", completed := true }
    (by decide)).trans (by decide)

/-- C3: `CheckOrUncheckAll` sets every item's completed flag to the negation
of "every item is completed", keeping every key, identifier and title; when
the collection was not unanimously completed, one application completes every
item and a second application then makes every item incomplete. -/
theorem checkOrUncheckAll_spec (m : Model) (gen : Nat) (s : LocalStorage) :
    (∀ k, btreeGet (update .CheckOrUncheckAll m gen s).1.todos k =
      (btreeGet m.todos k).map fun t => { t with completed := !allCompleted m.todos }) ∧
    (allCompleted m.todos = true →
      ∀ p ∈ (update .CheckOrUncheckAll m gen s).1.todos, p.2.completed = false) ∧
    (allCompleted m.todos = false →
      (∀ p ∈ (update .CheckOrUncheckAll m gen s).1.todos, p.2.completed = true) ∧
      ∀ p ∈ (update .CheckOrUncheckAll (update .CheckOrUncheckAll m gen s).1 gen s).1.todos,
        p.2.completed = false) := by
  refine ⟨?_, ?_, ?_⟩
  · intro k
    rw [checkOrUncheckAll_todos]
    exact btreeGet_map m.todos k fun t => { t with completed := !allCompleted m.todos }
  · intro hall p hp
    have h1 : (update .CheckOrUncheckAll m gen s).1.todos
        = m.todos.map fun q => (q.1, { q.2 with completed := false }) := by
      rw [checkOrUncheckAll_todos, hall, Bool.not_true]
    rw [h1] at hp
    exact mem_map_set_completed _ _ _ hp
  · intro hall
    have h1 : (update .CheckOrUncheckAll m gen s).1.todos
        = m.todos.map fun q => (q.1, { q.2 with completed := true }) := by
      rw [checkOrUncheckAll_todos, hall, Bool.not_false]
    have hall2 : allCompleted (update .CheckOrUncheckAll m gen s).1.todos = true := by
      rw [h1]
      exact allCompleted_map_true m.todos
    constructor
    · intro p hp
      rw [h1] at hp
      exact mem_map_set_completed _ _ _ hp
    · intro p hp
      have h2 : (update .CheckOrUncheckAll (update .CheckOrUncheckAll m gen s).1 gen s).1.todos
          = (update .CheckOrUncheckAll m gen s).1.todos.map
              fun q => (q.1, { q.2 with completed := false }) := by
        rw [checkOrUncheckAll_todos, hall2, Bool.not_true]
      rw [h2] at hp
      exact mem_map_set_completed _ _ _ hp

/-- C3 witness: on `{A : incomplete, B : complete}` (not unanimous), one
`CheckOrUncheckAll` completes item A (and leaves its identifier and title),
and a second application makes item A incomplete again. -/
theorem checkOrUncheckAll_spec_witness :
    allCompleted model3.todos = false ∧
    btreeGet (update .CheckOrUncheckAll model3 0 storage0).1.todos 1 =
      some { id := 1, title := "A", completed := true } ∧
    btreeGet (update .CheckOrUncheckAll
      (update .CheckOrUncheckAll model3 0 storage0).1 0 storage0).1.todos 1 =
      some { id := 1, title := "A", completed := false } := by
  refine ⟨by decide, ?_, ?_⟩
  · exact ((checkOrUncheckAll_spec model3 0 storage0).1 1).trans (by decide)
  · exact ((checkOrUncheckAll_spec
      (update .CheckOrUncheckAll model3 0 storage0).1 0 storage0).1 1).trans (by decide)

/-- C8: every message referencing an identifier absent from the collection —
`ToggleTodo`, `RemoveTodo`, `SelectTodo (some id)`, and `SaveSelectedTodo`
whose open session names an absent identifier — leaves the todo collection
unchanged; `update` is total, so no error is raised. -/
theorem absent_id_noop (m : Model) (gen : Nat) (s : LocalStorage) (id : Nat)
    (h : btreeGet m.todos id = none) :
    (update (.ToggleTodo id) m gen s).1.todos = m.todos ∧
    (update (.RemoveTodo id) m gen s).1.todos = m.todos ∧
    (update (.SelectTodo (some id)) m gen s).1.todos = m.todos ∧
    (∀ st : SelectedTodo, m.selected_todo = some st → st.id = id →
      (update .SaveSelectedTodo m gen s).1.todos = m.todos) := by
  refine ⟨?_, ?_, ?_, ?_⟩
  · simp only [update, updateModel]
    exact btreeModify_not_mem _ _ _ h
  · simp only [update, updateModel]
    exact btreeRemove_not_mem _ _ h
  · simp [update, updateModel, h]
  · intro st hst hid
    subst hid
    by_cases hb : rustTrim st.title = ""
    · simp [update, updateModel, hst, hb, btreeRemove_not_mem _ _ h]
    · simp [update, updateModel, hst, hb, btreeModify_not_mem _ _ _ h]

/-- C8 witness: identifier 99 is absent from `model3`; toggling, removing and
selecting it, and saving a session that names it, all leave the collection of
`model3` unchanged. -/
theorem absent_id_noop_witness :
    btreeGet model3.todos 99 = none ∧
    (update (.ToggleTodo 99) model3 0 storage0).1.todos = model3.todos ∧
    (update (.RemoveTodo 99) model3 0 storage0).1.todos = model3.todos ∧
    (update (.SelectTodo (some 99)) model3 0 storage0).1.todos = model3.todos := by
  have h := absent_id_noop model3 0 storage0 99 (by decide)
  exact ⟨by decide, h.1, h.2.1, h.2.2.1⟩

/-- C10: with an edit session open for identifier `st.id`, `RemoveTodo st.id`
deletes that item from the collection but does not close the session:
`selected_todo` still holds the same identifier and in-progress title. -/
theorem removeTodo_keeps_selected (m : Model) (gen : Nat) (s : LocalStorage)
    (st : SelectedTodo) (hsel : m.selected_todo = some st)
    (hnd : (m.todos.map Prod.fst).Nodup) :
    (update (.RemoveTodo st.id) m gen s).1.selected_todo = some st ∧
    btreeGet (update (.RemoveTodo st.id) m gen s).1.todos st.id = none := by
  constructor
  · simp [update, updateModel, hsel]
  · simp only [update, updateModel]
    exact btreeGet_remove_self _ _ hnd

/-- C10 witness: in `model2` the session for item 5 is open; `RemoveTodo 5`
deletes item 5 yet the session (with its in-progress title `"  New  "`) is
still open afterwards. -/
theorem removeTodo_keeps_selected_witness :
    (update (.RemoveTodo 5) model2 0 storage0).1.selected_todo =
      some { id := 5, title := "  New  " } ∧
    btreeGet (update (.RemoveTodo 5) model2 0 storage0).1.todos 5 = none := by
  exact removeTodo_keeps_selected model2 0 storage0 { id := 5, title := "  New  " }
    rfl (by decide)

end SeedApp
